import Mathlib

/-! Shallow embedding of `kubetop` (`src/kubetop.go`), a terminal dashboard
that polls a cluster API and renders one sorted, color-annotated table of
nodes, services, deployments and pods per cycle.  Go strings are modelled at
character granularity (`String` / `List Char`); byte-level indexing in the
source coincides with character indexing on ASCII data.  Durations are
modelled as exact integer nanosecond counts (`Int`), with Go's
float-to-int conversions rendered as truncating division (`Int.tdiv`),
which agrees with the source's `int(d.Seconds())` etc. wherever the float
arithmetic is exact. -/

namespace Kubetop

/-- Model of `truncate` (kubetop.go:318-325): `max = 20`, `rightLen = 5`;
strings of length `< 20` are returned unchanged, otherwise the result is
`s[0 : 20-3-5] ++ "..." ++ s[len(s)-5 :]`. -/
def truncate (s : List Char) : List Char :=
  if s.length < 20 then s
  else s.take (20 - 3 - 5) ++ "...".toList ++ s.drop (s.length - 5)

/-- One second in the model's nanosecond time unit (`time.Duration` is an
integer nanosecond count in Go). -/
def nanosPerSecond : Int := 1000000000

/-- Model of `shortHumanDuration` (kubetop.go:329-346).  `int(d.Seconds())`,
`int(d.Minutes())`, `int(d.Hours())` and `int(d.Hours()/24/365)` truncate
toward zero, modelled by `Int.tdiv` on the nanosecond count. -/
def shortHumanDuration (d : Int) : String :=
  let seconds := d.tdiv nanosPerSecond
  if seconds < -1 then "<invalid>"
  else if seconds < 0 then "0s"
  else if seconds < 60 then toString seconds ++ "s"
  else
    let minutes := d.tdiv (60 * nanosPerSecond)
    if minutes < 60 then toString minutes ++ "m"
    else
      let hours := d.tdiv (3600 * nanosPerSecond)
      if hours < 24 then toString hours ++ "h"
      else if hours < 24 * 364 then toString (hours.tdiv 24) ++ "d"
      else toString (d.tdiv (365 * 24 * 3600 * nanosPerSecond)) ++ "y"

/-- C2 counterexample: the claim fails on the code in two places.  A
20-character name is not longer than the 20-character threshold, yet
`truncate` modifies it (the source truncates whenever `len(s) >= 20`); and a
25-character name is shortened to a 12-character prefix (`20-3-5`), not a
17-character prefix, before the `"..."` and the 5 trailing characters. -/
theorem truncate_claim_counterexample :
    truncate "abcdefghijklmnopqrst".toList ≠ "abcdefghijklmnopqrst".toList ∧
    "abcdefghijklmnopqrst".toList.length = 20 ∧
    truncate "abcdefghijklmnopqrstuvwxy".toList = "abcdefghijkl...uvwxy".toList ∧
    "abcdefghijklmnopq".toList.length = 17 ∧
    truncate "abcdefghijklmnopqrstuvwxy".toList ≠
      "abcdefghijklmnopq".toList ++ "...".toList ++ "uvwxy".toList := by
  decide

/-- C2 (amended): a name of fewer than 20 characters is returned unmodified
(in particular a 19-character name); a name of 20 or more characters is
shortened to its 12-character prefix plus `"..."` plus its last 5
characters, for a total length of exactly 20. -/
theorem truncate_spec (s : List Char) :
    (s.length < 20 → truncate s = s) ∧
    (20 ≤ s.length →
      truncate s = s.take 12 ++ "...".toList ++ s.drop (s.length - 5) ∧
      (truncate s).length = 20) := by
  constructor
  · intro h
    simp [truncate, h]
  · intro h
    have h1 : truncate s = s.take 12 ++ "...".toList ++ s.drop (s.length - 5) := by
      unfold truncate
      rw [if_neg (by omega)]
    refine ⟨h1, ?_⟩
    rw [h1]
    simp only [List.length_append, List.length_take, List.length_drop]
    have h3 : "...".toList.length = 3 := by decide
    omega

/-- C2 witness: a 19-character name is unmodified and a 25-character name is
shortened to its 12-character prefix plus `"..."` plus its last 5 characters. -/
theorem truncate_spec_witness :
    truncate "abcdefghijklmnopqrs".toList = "abcdefghijklmnopqrs".toList ∧
    truncate "abcdefghijklmnopqrstuvwxy".toList =
      "abcdefghijklmnopqrstuvwxy".toList.take 12 ++ "...".toList ++
        "abcdefghijklmnopqrstuvwxy".toList.drop
          ("abcdefghijklmnopqrstuvwxy".toList.length - 5) :=
  ⟨(truncate_spec _).1 (by decide), ((truncate_spec _).2 (by decide)).1⟩

/-- C5: `shortHumanDuration` renders a nanosecond duration `d` as `"<n>s"`
for non-negative `d` below one minute, `"<n>m"` below one hour, `"<n>h"`
below one day, `"<n>d"` below 364 days, else `"<n>y"`; a negative `d`
strictly within the 2-second tolerance renders as `"0s"`, and `d` at or
beyond two negative seconds renders as `"<invalid>"`. -/
theorem shortHumanDuration_spec (d : Int) :
    (0 ≤ d → d < 60 * nanosPerSecond →
      shortHumanDuration d = toString (d.tdiv nanosPerSecond) ++ "s") ∧
    (60 * nanosPerSecond ≤ d → d < 3600 * nanosPerSecond →
      shortHumanDuration d = toString (d.tdiv (60 * nanosPerSecond)) ++ "m") ∧
    (3600 * nanosPerSecond ≤ d → d < 86400 * nanosPerSecond →
      shortHumanDuration d = toString (d.tdiv (3600 * nanosPerSecond)) ++ "h") ∧
    (86400 * nanosPerSecond ≤ d → d < 364 * 86400 * nanosPerSecond →
      shortHumanDuration d =
        toString ((d.tdiv (3600 * nanosPerSecond)).tdiv 24) ++ "d") ∧
    (364 * 86400 * nanosPerSecond ≤ d →
      shortHumanDuration d =
        toString (d.tdiv (365 * 24 * 3600 * nanosPerSecond)) ++ "y") ∧
    (-(2 * nanosPerSecond) < d → d < 0 → shortHumanDuration d = "0s") ∧
    (d ≤ -(2 * nanosPerSecond) → shortHumanDuration d = "<invalid>") := by
  refine ⟨?_, ?_, ?_, ?_, ?_, ?_, ?_⟩
  · intro h1 h2
    norm_num [nanosPerSecond] at h2
    have e1 : d.tdiv (1000000000 : Int) = d / 1000000000 :=
      Int.tdiv_eq_ediv h1 (by norm_num)
    simp only [shortHumanDuration, nanosPerSecond]
    rw [e1, if_neg (by omega), if_neg (by omega), if_pos (by omega)]
  · intro h1 h2
    norm_num [nanosPerSecond] at h1 h2
    have h0 : (0 : Int) ≤ d := by omega
    have e1 : d.tdiv (1000000000 : Int) = d / 1000000000 :=
      Int.tdiv_eq_ediv h0 (by norm_num)
    have e2 : d.tdiv ((60 : Int) * 1000000000) = d / 60000000000 := by
      rw [Int.tdiv_eq_ediv h0 (by norm_num)]; norm_num
    simp only [shortHumanDuration, nanosPerSecond]
    rw [e1, e2, if_neg (by omega), if_neg (by omega), if_neg (by omega),
      if_pos (by omega)]
  · intro h1 h2
    norm_num [nanosPerSecond] at h1 h2
    have h0 : (0 : Int) ≤ d := by omega
    have e1 : d.tdiv (1000000000 : Int) = d / 1000000000 :=
      Int.tdiv_eq_ediv h0 (by norm_num)
    have e2 : d.tdiv ((60 : Int) * 1000000000) = d / 60000000000 := by
      rw [Int.tdiv_eq_ediv h0 (by norm_num)]; norm_num
    have e3 : d.tdiv ((3600 : Int) * 1000000000) = d / 3600000000000 := by
      rw [Int.tdiv_eq_ediv h0 (by norm_num)]; norm_num
    simp only [shortHumanDuration, nanosPerSecond]
    rw [e1, e2, e3, if_neg (by omega), if_neg (by omega), if_neg (by omega),
      if_neg (by omega), if_pos (by omega)]
  · intro h1 h2
    norm_num [nanosPerSecond] at h1 h2
    have h0 : (0 : Int) ≤ d := by omega
    have e1 : d.tdiv (1000000000 : Int) = d / 1000000000 :=
      Int.tdiv_eq_ediv h0 (by norm_num)
    have e2 : d.tdiv ((60 : Int) * 1000000000) = d / 60000000000 := by
      rw [Int.tdiv_eq_ediv h0 (by norm_num)]; norm_num
    have e3 : d.tdiv ((3600 : Int) * 1000000000) = d / 3600000000000 := by
      rw [Int.tdiv_eq_ediv h0 (by norm_num)]; norm_num
    simp only [shortHumanDuration, nanosPerSecond]
    rw [e1, e2, e3, if_neg (by omega), if_neg (by omega), if_neg (by omega),
      if_neg (by omega), if_neg (by omega), if_pos (by omega)]
  · intro h1
    norm_num [nanosPerSecond] at h1
    have h0 : (0 : Int) ≤ d := by omega
    have e1 : d.tdiv (1000000000 : Int) = d / 1000000000 :=
      Int.tdiv_eq_ediv h0 (by norm_num)
    have e2 : d.tdiv ((60 : Int) * 1000000000) = d / 60000000000 := by
      rw [Int.tdiv_eq_ediv h0 (by norm_num)]; norm_num
    have e3 : d.tdiv ((3600 : Int) * 1000000000) = d / 3600000000000 := by
      rw [Int.tdiv_eq_ediv h0 (by norm_num)]; norm_num
    simp only [shortHumanDuration, nanosPerSecond]
    rw [e1, e2, e3, if_neg (by omega), if_neg (by omega), if_neg (by omega),
      if_neg (by omega), if_neg (by omega), if_neg (by omega)]
  · intro h1 h2
    norm_num [nanosPerSecond] at h1
    have hn : (0 : Int) ≤ -d := by omega
    have e0 : (-d).tdiv (1000000000 : Int) = (-d) / 1000000000 :=
      Int.tdiv_eq_ediv hn (by norm_num)
    have e : d.tdiv (1000000000 : Int) = -((-d) / 1000000000) := by
      have hnt := Int.neg_tdiv (-d) 1000000000
      rw [neg_neg] at hnt
      rw [hnt, e0]
    simp only [shortHumanDuration, nanosPerSecond]
    rw [e]
    by_cases hc : -d < 1000000000
    · have h0 : (-d) / 1000000000 = 0 := by omega
      rw [h0, if_neg (by norm_num), if_neg (by norm_num), if_pos (by norm_num)]
      rfl
    · have h0 : (-d) / 1000000000 = 1 := by omega
      rw [h0, if_neg (by norm_num), if_pos (by norm_num)]
  · intro h1
    norm_num [nanosPerSecond] at h1
    have hn : (0 : Int) ≤ -d := by omega
    have e0 : (-d).tdiv (1000000000 : Int) = (-d) / 1000000000 :=
      Int.tdiv_eq_ediv hn (by norm_num)
    have e : d.tdiv (1000000000 : Int) = -((-d) / 1000000000) := by
      have hnt := Int.neg_tdiv (-d) 1000000000
      rw [neg_neg] at hnt
      rw [hnt, e0]
    simp only [shortHumanDuration, nanosPerSecond]
    rw [e, if_pos (by omega)]

/-- C5 witness: the seven concrete examples from the spec, obtained from the
range cases of the main theorem. -/
theorem shortHumanDuration_spec_witness :
    shortHumanDuration (45 * nanosPerSecond) = "45s" ∧
    shortHumanDuration (90 * nanosPerSecond) = "1m" ∧
    shortHumanDuration (7200 * nanosPerSecond) = "2h" ∧
    shortHumanDuration (10 * 86400 * nanosPerSecond) = "10d" ∧
    shortHumanDuration (400 * 86400 * nanosPerSecond) = "1y" ∧
    shortHumanDuration (-(1 * nanosPerSecond)) = "0s" ∧
    shortHumanDuration (-(5 * nanosPerSecond)) = "<invalid>" := by
  refine ⟨?_, ?_, ?_, ?_, ?_, ?_, ?_⟩
  · rw [(shortHumanDuration_spec (45 * nanosPerSecond)).1 (by decide) (by decide)]
    decide
  · rw [(shortHumanDuration_spec (90 * nanosPerSecond)).2.1 (by decide) (by decide)]
    decide
  · rw [(shortHumanDuration_spec (7200 * nanosPerSecond)).2.2.1 (by decide) (by decide)]
    decide
  · rw [(shortHumanDuration_spec (10 * 86400 * nanosPerSecond)).2.2.2.1
      (by decide) (by decide)]
    decide
  · rw [(shortHumanDuration_spec (400 * 86400 * nanosPerSecond)).2.2.2.2.1 (by decide)]
    decide
  · exact (shortHumanDuration_spec (-(1 * nanosPerSecond))).2.2.2.2.2.1
      (by decide) (by decide)
  · exact (shortHumanDuration_spec (-(5 * nanosPerSecond))).2.2.2.2.2.2 (by decide)

/-- Go string comparison `s < t` (byte-wise lexicographic, which on UTF-8
agrees with character-wise lexicographic comparison), as used by `lcp`
(kubetop.go:349-373). -/
def strLt : List Char → List Char → Bool
  | _, [] => false
  | [], _ :: _ => true
  | a :: as, b :: bs => if a < b then true else if b < a then false else strLt as bs

theorem strLt_irrefl (a : List Char) : strLt a a = false := by
  induction a with
  | nil => rfl
  | cons x xs ih => simp [strLt, ih]

theorem strLt_iff (a : List Char) : ∀ b : List Char,
    strLt a b = true ↔ List.Lex (· < ·) a b := by
  induction a with
  | nil =>
    intro b
    cases b with
    | nil =>
      constructor
      · intro h; exact absurd h (by decide)
      · intro h; cases h
    | cons b1 bs =>
      constructor
      · intro _; exact List.Lex.nil
      · intro _; rfl
  | cons a1 as ih =>
    intro b
    cases b with
    | nil =>
      constructor
      · intro h; exact absurd h (by simp [strLt])
      · intro h; cases h
    | cons b1 bs =>
      simp only [strLt]
      by_cases hab : a1 < b1
      · rw [if_pos hab]
        constructor
        · intro _; exact List.Lex.rel hab
        · intro _; rfl
      · rw [if_neg hab]
        by_cases hba : b1 < a1
        · rw [if_pos hba]
          constructor
          · intro h; exact absurd h (by simp)
          · intro h
            cases h with
            | cons h' => exact absurd hba (lt_irrefl _)
            | rel h' => exact absurd h' hab
        · rw [if_neg hba]
          have heq : a1 = b1 := le_antisymm (not_lt.mp hba) (not_lt.mp hab)
          subst heq
          rw [ih bs]
          constructor
          · intro h; exact List.Lex.cons h
          · intro h
            cases h with
            | cons h' => exact h'
            | rel h' => exact absurd h' (lt_irrefl _)

theorem strLt_trans {a b c : List Char} (h1 : strLt a b = true)
    (h2 : strLt b c = true) : strLt a c = true :=
  (strLt_iff a c).mpr
    (IsTrans.trans a b c ((strLt_iff a b).mp h1) ((strLt_iff b c).mp h2))

theorem strLt_total_eq {a b : List Char} (h1 : strLt a b = false)
    (h2 : strLt b a = false) : a = b := by
  rcases (trichotomous a b :
      List.Lex (· < ·) a b ∨ a = b ∨ List.Lex (· < ·) b a) with h | h | h
  · exact absurd ((strLt_iff a b).mpr h) (by simp [h1])
  · exact h
  · exact absurd ((strLt_iff b a).mpr h) (by simp [h2])

theorem strLt_lt_of_lt_of_nlt {a b c : List Char} (h1 : strLt a b = true)
    (h2 : strLt c b = false) : strLt a c = true := by
  rcases (trichotomous a c :
      List.Lex (· < ·) a c ∨ a = c ∨ List.Lex (· < ·) c a) with h | h | h
  · exact (strLt_iff a c).mpr h
  · subst h
    exact absurd h1 (by simp [h2])
  · have hcb := strLt_trans ((strLt_iff c a).mpr h) h1
    exact absurd hcb (by simp [h2])

/-- Model of the min/max switch in `lcp`'s one-pass loop (kubetop.go:358-366):
`case s < min: min = s`, `case s > max: max = s`. -/
def minmaxStep (p : List Char × List Char) (s : List Char) : List Char × List Char :=
  if strLt s p.1 then (s, p.2) else if strLt p.2 s then (p.1, s) else p

/-- Model of the final character-comparison loop of `lcp`
(kubetop.go:367-372): walk `min` and `max` together, return `min[:i]` at the
first divergence, or `min` if either string is exhausted. -/
def lcpLoop : List Char → List Char → List Char
  | [], _ => []
  | m, [] => m
  | a :: as, b :: bs => if a = b then a :: lcpLoop as bs else []

/-- Character-by-character common prefix of two strings (the notion the spec
describes: compare min and max character by character until they diverge). -/
def commonPfx : List Char → List Char → List Char
  | a :: as, b :: bs => if a = b then a :: commonPfx as bs else []
  | _, _ => []

/-- Model of `lcp` (kubetop.go:349-373): empty set gives `""`, a singleton
gives its element verbatim, otherwise the character loop over the
lexicographic min and max computed by the one-pass fold. -/
def lcp : List (List Char) → List Char
  | [] => []
  | [s] => s
  | x :: rest =>
    let p := rest.foldl minmaxStep (x, x)
    lcpLoop p.1 p.2

theorem commonPfx_self (s : List Char) : commonPfx s s = s := by
  induction s with
  | nil => rfl
  | cons a as ih => simp [commonPfx, ih]

theorem foldl_minmax_spec (rest : List (List Char)) : ∀ mn mx : List Char,
    strLt mx mn = false →
    strLt (rest.foldl minmaxStep (mn, mx)).2 (rest.foldl minmaxStep (mn, mx)).1 = false ∧
    ((rest.foldl minmaxStep (mn, mx)).1 = mn ∨ (rest.foldl minmaxStep (mn, mx)).1 ∈ rest) ∧
    ((rest.foldl minmaxStep (mn, mx)).2 = mx ∨ (rest.foldl minmaxStep (mn, mx)).2 ∈ rest) ∧
    strLt mn (rest.foldl minmaxStep (mn, mx)).1 = false ∧
    strLt (rest.foldl minmaxStep (mn, mx)).2 mx = false ∧
    ∀ s ∈ rest, strLt s (rest.foldl minmaxStep (mn, mx)).1 = false ∧
      strLt (rest.foldl minmaxStep (mn, mx)).2 s = false := by
  induction rest with
  | nil =>
    intro mn mx h
    exact ⟨h, .inl rfl, .inl rfl, strLt_irrefl mn, strLt_irrefl mx,
      fun s hs => absurd hs (List.not_mem_nil s)⟩
  | cons s rest ih =>
    intro mn mx h
    simp only [List.foldl_cons]
    by_cases h1 : strLt s mn = true
    · have hpre : strLt mx s = false := by
        cases hx : strLt mx s with
        | false => rfl
        | true => exact absurd (strLt_trans hx h1) (by simp [h])
      have hstep : minmaxStep (mn, mx) s = (s, mx) := by
        simp [minmaxStep, h1]
      rw [hstep]
      obtain ⟨hp, hmem1, hmem2, hlow, hhigh, hall⟩ := ih s mx hpre
      refine ⟨hp, ?_, ?_, ?_, hhigh, ?_⟩
      · rcases hmem1 with h' | h'
        · exact .inr (by simp [h'])
        · exact .inr (List.mem_cons_of_mem _ h')
      · rcases hmem2 with h' | h'
        · exact .inl h'
        · exact .inr (List.mem_cons_of_mem _ h')
      · cases hx : strLt mn (rest.foldl minmaxStep (s, mx)).1 with
        | false => rfl
        | true => exact absurd (strLt_trans h1 hx) (by simp [hlow])
      · intro t ht
        rcases List.mem_cons.mp ht with rfl | ht'
        · refine ⟨hlow, ?_⟩
          cases hx : strLt (rest.foldl minmaxStep (t, mx)).2 t with
          | false => rfl
          | true => exact absurd (strLt_lt_of_lt_of_nlt hx hpre) (by simp [hhigh])
        · exact hall t ht'
    · have h1' : strLt s mn = false := by simpa using h1
      by_cases h2 : strLt mx s = true
      · have hstep : minmaxStep (mn, mx) s = (mn, s) := by
          simp [minmaxStep, h1', h2]
        rw [hstep]
        obtain ⟨hp, hmem1, hmem2, hlow, hhigh, hall⟩ := ih mn s h1'
        refine ⟨hp, ?_, ?_, hlow, ?_, ?_⟩
        · rcases hmem1 with h' | h'
          · exact .inl h'
          · exact .inr (List.mem_cons_of_mem _ h')
        · rcases hmem2 with h' | h'
          · exact .inr (by simp [h'])
          · exact .inr (List.mem_cons_of_mem _ h')
        · cases hx : strLt (rest.foldl minmaxStep (mn, s)).2 mx with
          | false => rfl
          | true => exact absurd (strLt_trans hx h2) (by simp [hhigh])
        · intro t ht
          rcases List.mem_cons.mp ht with rfl | ht'
          · refine ⟨?_, hhigh⟩
            cases hx : strLt t (rest.foldl minmaxStep (mn, t)).1 with
            | false => rfl
            | true => exact absurd (strLt_lt_of_lt_of_nlt hx hlow) (by simp [h1'])
          · exact hall t ht'
      · have h2' : strLt mx s = false := by simpa using h2
        have hstep : minmaxStep (mn, mx) s = (mn, mx) := by
          simp [minmaxStep, h1', h2']
        rw [hstep]
        obtain ⟨hp, hmem1, hmem2, hlow, hhigh, hall⟩ := ih mn mx h
        refine ⟨hp, ?_, ?_, hlow, hhigh, ?_⟩
        · rcases hmem1 with h' | h'
          · exact .inl h'
          · exact .inr (List.mem_cons_of_mem _ h')
        · rcases hmem2 with h' | h'
          · exact .inl h'
          · exact .inr (List.mem_cons_of_mem _ h')
        · intro t ht
          rcases List.mem_cons.mp ht with rfl | ht'
          · constructor
            · cases hx : strLt t (rest.foldl minmaxStep (mn, mx)).1 with
              | false => rfl
              | true => exact absurd (strLt_lt_of_lt_of_nlt hx hlow) (by simp [h1'])
            · cases hx : strLt (rest.foldl minmaxStep (mn, mx)).2 t with
              | false => rfl
              | true => exact absurd (strLt_lt_of_lt_of_nlt hx h2') (by simp [hhigh])
          · exact hall t ht'

theorem lcpLoop_isPfx : ∀ mn mx s : List Char,
    strLt mx mn = false → strLt s mn = false → strLt mx s = false →
    lcpLoop mn mx <+: s := by
  intro mn
  induction mn with
  | nil => intro mx s _ _ _; exact ⟨s, by cases mx <;> rfl⟩
  | cons a as ih =>
    intro mx s hmx hs hms
    cases mx with
    | nil => exact absurd hmx (by simp [strLt])
    | cons b bs =>
      by_cases hab : a = b
      · subst hab
        have hmx' : strLt bs as = false := by
          simpa [strLt] using hmx
        cases s with
        | nil => exact absurd hs (by simp [strLt])
        | cons c cs =>
          by_cases hca : c < a
          · exact absurd hs (by simp [strLt, hca])
          · by_cases hac : a < c
            · exact absurd hms (by simp [strLt, hac])
            · have hceq : c = a := le_antisymm (not_lt.mp hac) (not_lt.mp hca)
              subst hceq
              have hs' : strLt cs as = false := by
                simpa [strLt] using hs
              have hms' : strLt bs cs = false := by
                simpa [strLt] using hms
              obtain ⟨t, ht⟩ := ih bs cs hmx' hs' hms'
              refine ⟨t, ?_⟩
              simp [lcpLoop, ht]
      · refine ⟨s, ?_⟩
        simp [lcpLoop, hab]

theorem lcpLoop_eq_commonPfx : ∀ mn mx : List Char,
    strLt mx mn = false → lcpLoop mn mx = commonPfx mn mx := by
  intro mn
  induction mn with
  | nil =>
    intro mx _
    cases mx <;> rfl
  | cons a as ih =>
    intro mx hmx
    cases mx with
    | nil => exact absurd hmx (by simp [strLt])
    | cons b bs =>
      by_cases hab : a = b
      · subst hab
        have hmx' : strLt bs as = false := by
          simpa [strLt] using hmx
        simp [lcpLoop, commonPfx, ih bs hmx']
      · simp [lcpLoop, commonPfx, hab]

/-- C4: `lcp` of the empty list is the empty string; for every non-empty
list, `lcp` returns a prefix of every element (for a singleton, the element
itself, which is a prefix of itself), and the result equals the
character-by-character common prefix of the lexicographic minimum and
maximum elements of the list. -/
theorem lcp_spec :
    lcp [] = [] ∧
    ∀ (l : List (List Char)) (m M : List Char),
      l ≠ [] → m ∈ l → M ∈ l →
      (∀ s ∈ l, strLt s m = false) → (∀ s ∈ l, strLt M s = false) →
      (∀ s ∈ l, lcp l <+: s) ∧ lcp l = commonPfx m M := by
  refine ⟨rfl, ?_⟩
  intro l m M hne hm hM hmin hmax
  cases l with
  | nil => exact absurd rfl hne
  | cons x rest =>
    cases rest with
    | nil =>
      have hmx : m = x := by simpa using hm
      have hMx : M = x := by simpa using hM
      constructor
      · intro s hs
        have hsx : s = x := by simpa using hs
        have hl : lcp [x] = x := rfl
        rw [hsx, hl]
      · rw [hmx, hMx, commonPfx_self]
        rfl
    | cons y rest' =>
      obtain ⟨hp, hmem1, hmem2, hlow, hhigh, hall⟩ :=
        foldl_minmax_spec (y :: rest') x x (strLt_irrefl x)
      have hlcp : lcp (x :: y :: rest') =
          lcpLoop ((y :: rest').foldl minmaxStep (x, x)).1
            ((y :: rest').foldl minmaxStep (x, x)).2 := rfl
      have hmemList1 : ((y :: rest').foldl minmaxStep (x, x)).1 ∈ x :: y :: rest' := by
        rcases hmem1 with h' | h'
        · rw [h']
          exact List.mem_cons_self x (y :: rest')
        · exact List.mem_cons_of_mem _ h'
      have hmemList2 : ((y :: rest').foldl minmaxStep (x, x)).2 ∈ x :: y :: rest' := by
        rcases hmem2 with h' | h'
        · rw [h']
          exact List.mem_cons_self x (y :: rest')
        · exact List.mem_cons_of_mem _ h'
      have hminAll : ∀ s ∈ x :: y :: rest',
          strLt s ((y :: rest').foldl minmaxStep (x, x)).1 = false := by
        intro s hs
        rcases List.mem_cons.mp hs with rfl | hs'
        · exact hlow
        · exact (hall s hs').1
      have hmaxAll : ∀ s ∈ x :: y :: rest',
          strLt ((y :: rest').foldl minmaxStep (x, x)).2 s = false := by
        intro s hs
        rcases List.mem_cons.mp hs with rfl | hs'
        · exact hhigh
        · exact (hall s hs').2
      constructor
      · intro s hs
        rw [hlcp]
        exact lcpLoop_isPfx _ _ s hp (hminAll s hs) (hmaxAll s hs)
      · have h1 : ((y :: rest').foldl minmaxStep (x, x)).1 = m :=
          strLt_total_eq (hmin _ hmemList1) (hminAll m hm)
        have h2 : ((y :: rest').foldl minmaxStep (x, x)).2 = M :=
          strLt_total_eq (hmaxAll M hM) (hmax _ hmemList2)
        rw [hlcp, lcpLoop_eq_commonPfx _ _ hp, h1, h2]

/-- C4 witness: the spec's two-node example `["node-a1", "node-a2"]`, whose
minimum is `"node-a1"`, maximum is `"node-a2"`, and common prefix `"node-a"`
is a prefix of both. -/
theorem lcp_spec_witness :
    (∀ s ∈ ["node-a1".toList, "node-a2".toList],
      lcp ["node-a1".toList, "node-a2".toList] <+: s) ∧
    lcp ["node-a1".toList, "node-a2".toList] =
      commonPfx "node-a1".toList "node-a2".toList :=
  lcp_spec.2 ["node-a1".toList, "node-a2".toList] "node-a1".toList
    "node-a2".toList (by decide) (by decide) (by decide) (by decide) (by decide)

/-- The string Go's `fmt.Sprintf("%s", r[i])` produces for a `Row` (a
`[]string`): the fields joined by single spaces, wrapped in brackets
(kubetop.go:45-47). -/
def rowKey (r : List String) : String :=
  "[" ++ String.intercalate " " r ++ "]"

/-- Go string comparison lifted to Lean `String` (byte-wise on UTF-8 equals
character-wise). -/
def strLtS (a b : String) : Bool :=
  strLt a.toList b.toList

/-- The (non-strict) comparison the sort uses: `sort.Sort` with
`Less i j = (fmt.Sprintf("%s", r[i]) < fmt.Sprintf("%s", r[j]))` orders rows
by `rowKey`; `rowLe` is the corresponding total preorder `¬ (key b < key a)`. -/
def rowLe (a b : List String) : Bool :=
  ! strLtS (rowKey b) (rowKey a)

/-- Model of `sort.Sort(rows)` (kubetop.go:108): a comparison sort whose
output is a permutation of the input, sorted under `rowLe`. -/
def sortRows (rs : List (List String)) : List (List String) :=
  rs.mergeSort rowLe

/-- The claim's comparison: lexicographic over the fields read
left-to-right (first field, then second field, …), with Go string
comparison on each field. -/
def rowFieldLt : List String → List String → Bool
  | _, [] => false
  | [], _ :: _ => true
  | a :: as, b :: bs =>
    if strLtS a b then true else if strLtS b a then false else rowFieldLt as bs

theorem rowLe_trans : ∀ a b c : List String,
    rowLe a b → rowLe b c → rowLe a c := by
  intro a b c h1 h2
  simp only [rowLe, strLtS, Bool.not_eq_true'] at *
  cases hx : strLt (rowKey c).toList (rowKey a).toList with
  | false => rfl
  | true =>
    have hcb := strLt_lt_of_lt_of_nlt hx h1
    rw [h2] at hcb
    exact absurd hcb (by decide)

theorem rowLe_total : ∀ a b : List String, rowLe a b || rowLe b a := by
  intro a b
  simp only [rowLe, strLtS, Bool.or_eq_true, Bool.not_eq_true']
  cases hx : strLt (rowKey b).toList (rowKey a).toList with
  | false => exact .inl rfl
  | true =>
    cases hy : strLt (rowKey a).toList (rowKey b).toList with
    | false => exact .inr rfl
    | true =>
      have haa := strLt_trans hy hx
      rw [strLt_irrefl] at haa
      exact absurd haa (by decide)

/-- A row whose bracket-joined rendering `"[a b z     ]"` sorts before
`rowB`'s rendering, although field-by-field it sorts after `rowB`. -/
def rowA : List String := ["a b", "z", "", "", "", "", ""]

/-- A row whose first field `"a"` is a proper prefix of `rowA`'s first
field `"a b"`, so `rowB` precedes `rowA` under field-by-field comparison. -/
def rowB : List String := ["a", "bz", "", "", "", "", ""]

/-- C3 counterexample: the code's order is not lexicographic comparison of
the fields read left-to-right.  `rowB`'s first field `"a"` is a proper
prefix of `rowA`'s first field `"a b"`, so `rowB` strictly precedes `rowA`
field-wise, yet the sorter leaves `[rowA, rowB]` unchanged because the
joined rendering compares `' '` (the joining space) against `'b'`. -/
theorem sorter_claim_counterexample :
    sortRows [rowA, rowB] = [rowA, rowB] ∧
    rowFieldLt rowB rowA = true ∧
    rowA ≠ rowB := by
  refine ⟨?_, by decide, by decide⟩
  have hAB : rowLe rowA rowB = true := by decide
  show List.mergeSort [rowA, rowB] rowLe = [rowA, rowB]
  simp [List.mergeSort, List.merge, hAB]

/-- C3 (amended): the Sorter produces a permutation of its input that is
sorted by lexicographic comparison of each Row's single rendered string —
the fields joined by spaces and wrapped in brackets (`rowKey`) — over the
already color-annotated field strings.  This is not in general the same
order as comparing the fields one at a time. -/
theorem sortRows_sorted_by_key (rs : List (List String)) :
    (sortRows rs).Perm rs ∧
    (sortRows rs).Pairwise
      (fun a b => strLt (rowKey b).toList (rowKey a).toList = false) := by
  constructor
  · exact List.mergeSort_perm rs rowLe
  · have h := List.sorted_mergeSort rowLe_trans rowLe_total rs
    exact h.imp (fun hab => by simpa [rowLe, strLtS] using hab)

/-- ANSI color wrapper as produced by `color.New(code).SprintFunc()` in the
source's color definitions (kubetop.go:28-33). -/
def ansi (code : String) (s : String) : String :=
  "\x1b[" ++ code ++ "m" ++ s ++ "\x1b[0m"

/-- Yellow, used for node rows. -/
def colorNode (s : String) : String := ansi "33" s

/-- Cyan, used for pod rows. -/
def colorPod (s : String) : String := ansi "36" s

/-- Blue, used for service rows. -/
def colorService (s : String) : String := ansi "34" s

/-- Magenta, used for deployment rows. -/
def colorDeployment (s : String) : String := ansi "35" s

/-- Red, used for failing pod and deployment status fields. -/
def colorFailed (s : String) : String := ansi "31" s

/-- A status condition: a type name and a truth value, as returned by the
cluster API (`c.Type`, `c.Status`). -/
structure Cond where
  type : String
  status : String

/-- A node item as read from the cluster API: the fields `getNodes` uses.
`created` is the creation timestamp in nanoseconds. -/
structure NodeItem where
  nspace : String
  name : String
  phase : String
  conditions : List Cond
  addresses : List String
  created : Int

/-- Address deduplication in `getNodes` (kubetop.go:143-151): a map records
seen addresses and repeats are skipped, keeping first occurrences in order. -/
def dedupFirst (seen : List String) : List String → List String
  | [] => []
  | a :: rest =>
    if a ∈ seen then dedupFirst seen rest else a :: dedupFirst (a :: seen) rest

/-- The status field of a node row: the phase (when non-empty) followed by
the types of conditions whose status is `"True"`, in API order. -/
def nodeStatuses (node : NodeItem) : List String :=
  (if node.phase.length > 0 then [node.phase] else []) ++
    (node.conditions.filter (fun c => c.status == "True")).map (fun c => c.type)

/-- Model of `getNodes` (kubetop.go:122-164): the row sequence the node
fetcher sends, given the already-listed items (the API call itself is
modelled in `cycle`). -/
def getNodes (flagNamespace : String) (now : Int) (items : List NodeItem) :
    List (List String) :=
  items.filterMap fun node =>
    if flagNamespace ≠ "" ∧ node.nspace ≠ flagNamespace then none
    else some [colorNode "[node]", colorNode node.nspace, colorNode node.name,
      colorNode (String.intercalate " " (nodeStatuses node)),
      colorNode "",
      colorNode (String.intercalate " " (dedupFirst [] node.addresses)),
      colorNode (shortHumanDuration (now - node.created))]

/-- A load-balancer ingress record (`c.IP`, `c.Hostname`). -/
structure Ingress where
  ip : String
  hostname : String

/-- A service item as read from the cluster API: the fields `getServices`
uses.  `ports` holds the port names (`c.Name`). -/
structure ServiceItem where
  nspace : String
  name : String
  ingress : List Ingress
  ports : List String
  externalIPs : List String
  clusterIP : String
  created : Int

/-- Model of `getServices` (kubetop.go:166-206). -/
def getServices (flagNamespace : String) (now : Int) (items : List ServiceItem) :
    List (List String) :=
  items.filterMap fun service =>
    if service.nspace == "kube-system" then none
    else if flagNamespace ≠ "" ∧ service.nspace ≠ flagNamespace then none
    else
      some [colorService "[svc]", colorService service.nspace,
        colorService service.name,
        colorService (String.intercalate ","
          (service.ingress.map (fun c => c.ip ++ " " ++ c.hostname))),
        colorService "",
        colorService (String.intercalate " "
            (service.externalIPs ++
              (if service.clusterIP ≠ "" then [service.clusterIP] else [])) ++
          " " ++ String.intercalate " " service.ports),
        colorService (shortHumanDuration (now - service.created))]

/-- A deployment item as read from the cluster API: the fields
`getDeployments` uses.  `specReplicas` models the `*int32` pointer
`Spec.Replicas`, which may be nil (`none`). -/
structure DeploymentItem where
  nspace : String
  name : String
  conditions : List Cond
  availableReplicas : Int
  replicas : Int
  specReplicas : Option Int
  created : Int

/-- Model of `getDeployments` (kubetop.go:208-256).  The source
unconditionally dereferences `*dep.Spec.Replicas` for every item that
passes the namespace filters; a nil pointer there panics the process,
modelled as `none`. -/
def getDeployments (flagNamespace : String) (now : Int) :
    List DeploymentItem → Option (List (List String))
  | [] => some []
  | dep :: rest =>
    if dep.nspace == "kube-system" then getDeployments flagNamespace now rest
    else if flagNamespace ≠ "" ∧ dep.nspace ≠ flagNamespace then
      getDeployments flagNamespace now rest
    else
      match dep.specReplicas with
      | none => none
      | some specReplicas =>
        (getDeployments flagNamespace now rest).map (fun rows =>
          [colorDeployment "[deploy]", colorDeployment dep.nspace,
            colorDeployment dep.name,
            (if dep.availableReplicas < specReplicas then colorFailed else
              colorDeployment)
              (toString dep.availableReplicas ++ "/" ++ toString dep.replicas ++
                "/" ++ toString specReplicas ++ " " ++ String.intercalate " "
                  ((dep.conditions.filter (fun c => c.status == "True")).map
                    (fun c => c.type))),
            colorDeployment "", colorDeployment "",
            colorDeployment (shortHumanDuration (now - dep.created))] :: rows)

/-- A pod item as read from the cluster API: the fields `getPods` uses. -/
structure PodItem where
  nspace : String
  name : String
  phase : String
  conditions : List Cond
  nodeName : String
  podIP : String
  created : Int

/-- `truncate` on Lean strings (`fmt.Sprintf("%v", truncate(name))`). -/
def truncateS (s : String) : String :=
  (truncate s.toList).asString

/-- `strings.TrimPrefix`: drop `pre` from the front of `s` when `s` starts
with it, else return `s` unchanged. -/
def trimPfx (s pre : String) : String :=
  if pre.isPrefixOf s then s.drop pre.length else s

/-- Model of `getPods` (kubetop.go:258-297). -/
def getPods (flagNamespace : String) (now : Int) (lcpNodes : String)
    (items : List PodItem) : List (List String) :=
  items.filterMap fun pod =>
    if pod.nspace == "kube-system" then none
    else if flagNamespace ≠ "" ∧ pod.nspace ≠ flagNamespace then none
    else
      some [colorPod "[pod]", colorPod pod.nspace, colorPod (truncateS pod.name),
        (if pod.phase == "Running" then colorPod else colorFailed)
          (String.intercalate " " (pod.phase ::
            (pod.conditions.filter (fun c => c.status == "True")).map
              (fun c => c.type))),
        colorPod (trimPfx pod.nodeName lcpNodes), colorPod pod.podIP,
        colorPod (shortHumanDuration (now - pod.created))]

/-- The fixed 7-column header (kubetop.go:109-117). -/
def header7 : List String :=
  ["Type", "Namespace", "Name", "Status", "Node", "IPs", "Age"]

/-- Model of `render` (kubetop.go:299-316): `log.Fatalf` when some row's
field count differs from the header's (modelled as `none`), otherwise the
header followed by all rows in the order given. -/
def render (header : List String) (rows : List (List String)) :
    Option (List (List String)) :=
  if rows.all (fun row => row.length == header.length) then
    some (header :: rows)
  else none

theorem getNodes_length {flagNamespace : String} {now : Int}
    {items : List NodeItem} {r : List String}
    (h : r ∈ getNodes flagNamespace now items) : r.length = 7 := by
  simp only [getNodes, List.mem_filterMap] at h
  obtain ⟨node, _, hr⟩ := h
  split at hr
  · exact absurd hr (by simp)
  · simp only [Option.some.injEq] at hr
    rw [← hr]
    rfl

theorem getServices_length {flagNamespace : String} {now : Int}
    {items : List ServiceItem} {r : List String}
    (h : r ∈ getServices flagNamespace now items) : r.length = 7 := by
  simp only [getServices, List.mem_filterMap] at h
  obtain ⟨service, _, hr⟩ := h
  split at hr
  · exact absurd hr (by simp)
  · split at hr
    · exact absurd hr (by simp)
    · simp only [Option.some.injEq] at hr
      rw [← hr]
      rfl

theorem getPods_length {flagNamespace lcpNodes : String} {now : Int}
    {items : List PodItem} {r : List String}
    (h : r ∈ getPods flagNamespace now lcpNodes items) : r.length = 7 := by
  simp only [getPods, List.mem_filterMap] at h
  obtain ⟨pod, _, hr⟩ := h
  split at hr
  · exact absurd hr (by simp)
  · split at hr
    · exact absurd hr (by simp)
    · simp only [Option.some.injEq] at hr
      rw [← hr]
      rfl

theorem getDeployments_length {flagNamespace : String} {now : Int} :
    ∀ {items : List DeploymentItem} {rows : List (List String)},
      getDeployments flagNamespace now items = some rows →
      ∀ r ∈ rows, r.length = 7 := by
  intro items
  induction items with
  | nil =>
    intro rows h r hr
    simp only [getDeployments, Option.some.injEq] at h
    rw [← h] at hr
    exact absurd hr (List.not_mem_nil r)
  | cons dep rest ih =>
    intro rows h r hr
    simp only [getDeployments] at h
    split at h
    · exact ih h r hr
    · split at h
      · exact ih h r hr
      · cases hsp : dep.specReplicas with
        | none => rw [hsp] at h; exact absurd h (by simp)
        | some n =>
          rw [hsp] at h
          rcases Option.map_eq_some'.mp h with ⟨rows', hrows', heq⟩
          rw [← heq] at hr
          rcases List.mem_cons.mp hr with rfl | hr'
          · rfl
          · exact ih hrows' r hr'

theorem getDeployments_isSome {flagNamespace : String} {now : Int} :
    ∀ {items : List DeploymentItem},
      (∀ d ∈ items, d.specReplicas.isSome = true) →
      (getDeployments flagNamespace now items).isSome = true := by
  intro items
  induction items with
  | nil => intro _; rfl
  | cons dep rest ih =>
    intro h
    have hrest : ∀ d ∈ rest, d.specReplicas.isSome = true :=
      fun d hd => h d (List.mem_cons_of_mem _ hd)
    simp only [getDeployments]
    split
    · exact ih hrest
    · split
      · exact ih hrest
      · cases hsp : dep.specReplicas with
        | none =>
          have := h dep (List.mem_cons_self _ _)
          rw [hsp] at this
          exact absurd this (by simp)
        | some n =>
          simp only [Option.isSome_map']
          exact ih hrest

/-- A concrete node item used in witnesses. -/
def nodeA : NodeItem :=
  { nspace := "", name := "node-a1", phase := "",
    conditions := [{ type := "Ready", status := "True" }],
    addresses := ["10.0.0.1", "10.0.0.1"], created := 0 }

/-- A deployment item whose `Spec.Replicas` pointer is nil. -/
def depBad : DeploymentItem :=
  { nspace := "default", name := "web", conditions := [],
    availableReplicas := 0, replicas := 0, specReplicas := none, created := 0 }

/-- A deployment item with `Spec.Replicas` set (1 of 2 replicas available). -/
def depGood : DeploymentItem :=
  { nspace := "default", name := "web",
    conditions := [{ type := "Available", status := "True" }],
    availableReplicas := 1, replicas := 2, specReplicas := some 2,
    created := 0 }

/-- C7: every row any of the four fetchers appends has exactly 7 fields, so
for every Snapshot built from fetcher output the Renderer's field-count
check never fires: `render` succeeds and prints the header followed by all
rows in the order given. -/
theorem fetchers_rows_length7 (flagNamespace lcpNodes : String) (now : Int)
    (nitems : List NodeItem) (sitems : List ServiceItem)
    (ditems : List DeploymentItem) (pitems : List PodItem)
    (drows : List (List String))
    (hd : getDeployments flagNamespace now ditems = some drows) :
    (∀ r ∈ getNodes flagNamespace now nitems ++
        getServices flagNamespace now sitems ++ drows ++
        getPods flagNamespace now lcpNodes pitems, r.length = 7) ∧
    render header7 (sortRows (getNodes flagNamespace now nitems ++
        getServices flagNamespace now sitems ++ drows ++
        getPods flagNamespace now lcpNodes pitems)) =
      some (header7 :: sortRows (getNodes flagNamespace now nitems ++
        getServices flagNamespace now sitems ++ drows ++
        getPods flagNamespace now lcpNodes pitems)) := by
  have hlen : ∀ r ∈ getNodes flagNamespace now nitems ++
      getServices flagNamespace now sitems ++ drows ++
      getPods flagNamespace now lcpNodes pitems, r.length = 7 := by
    intro r hr
    simp only [List.mem_append] at hr
    rcases hr with ((h | h) | h) | h
    · exact getNodes_length h
    · exact getServices_length h
    · exact getDeployments_length hd r h
    · exact getPods_length h
  refine ⟨hlen, ?_⟩
  unfold render
  rw [if_pos]
  rw [List.all_eq_true]
  intro r hr
  have hr' : r ∈ getNodes flagNamespace now nitems ++
      getServices flagNamespace now sitems ++ drows ++
      getPods flagNamespace now lcpNodes pitems := by
    simp only [sortRows] at hr
    exact List.mem_mergeSort.mp hr
  rw [hlen r hr']
  rfl

/-- C7 witness: a concrete snapshot with one node row renders successfully
under the 7-column header. -/
theorem fetchers_rows_length7_witness :
    (∀ r ∈ getNodes "" 0 [nodeA] ++ getServices "" 0 [] ++ [] ++
        getPods "" 0 "" [], r.length = 7) ∧
    render header7 (sortRows (getNodes "" 0 [nodeA] ++ getServices "" 0 [] ++
        [] ++ getPods "" 0 "" [])) =
      some (header7 :: sortRows (getNodes "" 0 [nodeA] ++ getServices "" 0 [] ++
        [] ++ getPods "" 0 "" [])) :=
  fetchers_rows_length7 "" "" 0 [nodeA] [] [] [] [] rfl

/-- Model of one cycle's fetch-and-render path (kubetop.go:88-119), with
each fetcher's API response given as `Except`: an `error` response makes the
fetcher call `log.Fatal`, killing the process (`none`); a nil
`Spec.Replicas` panic likewise kills it; otherwise the cycle sorts the
aggregated rows and renders them under the fixed header. -/
def cycle (flagNamespace lcpNodes : String) (now : Int)
    (nres : Except Unit (List NodeItem)) (sres : Except Unit (List ServiceItem))
    (dres : Except Unit (List DeploymentItem))
    (pres : Except Unit (List PodItem)) : Option (List (List String)) :=
  match nres, sres, dres, pres with
  | .ok nitems, .ok sitems, .ok ditems, .ok pitems =>
    match getDeployments flagNamespace now ditems with
    | none => none
    | some drows =>
      render header7 (sortRows (getNodes flagNamespace now nitems ++
        getServices flagNamespace now sitems ++ drows ++
        getPods flagNamespace now lcpNodes pitems))
  | _, _, _, _ => none

/-- C8: if any fetcher's resource-list call returns an error, the process
dies: the cycle renders nothing — no retry, no partial row sequence, and no
other fetcher's result reaches the table. -/
theorem cycle_fatal_on_error (flagNamespace lcpNodes : String) (now : Int)
    (nres : Except Unit (List NodeItem)) (sres : Except Unit (List ServiceItem))
    (dres : Except Unit (List DeploymentItem))
    (pres : Except Unit (List PodItem))
    (h : nres = .error () ∨ sres = .error () ∨ dres = .error () ∨
      pres = .error ()) :
    cycle flagNamespace lcpNodes now nres sres dres pres = none := by
  cases nres <;> cases sres <;> cases dres <;> cases pres <;>
    first
      | rfl
      | (rcases h with h | h | h | h <;> simp at h)

/-- C8 witness: a node-fetcher error kills the cycle even though the other
three fetchers succeed. -/
theorem cycle_fatal_on_error_witness :
    cycle "" "" 0 (.error ()) (.ok []) (.ok [depGood]) (.ok []) = none :=
  cycle_fatal_on_error "" "" 0 (.error ()) (.ok []) (.ok [depGood]) (.ok [])
    (.inl rfl)

/-- C9: when the namespace filter flag is a non-empty string, the node
fetcher produces zero rows: cluster-scoped nodes carry an empty namespace,
which never equals a non-empty filter, so every node item is skipped. -/
theorem getNodes_empty_when_filtered (flagNamespace : String) (now : Int)
    (items : List NodeItem) (hflag : flagNamespace ≠ "")
    (hns : ∀ node ∈ items, node.nspace = "") :
    getNodes flagNamespace now items = [] := by
  unfold getNodes
  rw [List.filterMap_eq_nil_iff]
  intro node hn
  rw [if_pos]
  exact ⟨hflag, by rw [hns node hn]; exact fun hh => hflag hh.symm⟩

/-- C9 witness: with the filter set to `"kube-public"`, a node with an empty
namespace yields no rows. -/
theorem getNodes_empty_when_filtered_witness :
    getNodes "kube-public" 0 [nodeA] = [] :=
  getNodes_empty_when_filtered "kube-public" 0 [nodeA] (by decide)
    (by intro node hn
        rw [List.mem_singleton] at hn
        rw [hn]
        rfl)

/-- C10: the deployment fetcher dereferences `*dep.Spec.Replicas` for every
item that passes the filters, so it is total whenever every listed
deployment has a non-nil `Spec.Replicas`; for an item with that field
unset, the error (panic) branch of the embedding is reachable. -/
theorem getDeployments_replicas_deref (flagNamespace : String) (now : Int) :
    (∀ items : List DeploymentItem,
      (∀ d ∈ items, d.specReplicas.isSome = true) →
      (getDeployments flagNamespace now items).isSome = true) ∧
    getDeployments "" 0 [depBad] = none := by
  constructor
  · intro items h
    exact getDeployments_isSome h
  · rfl

/-- C10 witness: the totality half applied to a concrete deployment with
`Spec.Replicas` set. -/
theorem getDeployments_replicas_deref_witness :
    (getDeployments "" 0 [depGood]).isSome = true :=
  (getDeployments_replicas_deref "" 0).1 [depGood] (by decide)

/-- State of the fan-in protocol in `main`'s cycle (kubetop.go:86-108): an
unbuffered channel `ch`, four producer tasks each sending its whole row
sequence once, a collector task
(`go func() { for r := range ch { rows = append(rows, r...) } }()`),
and the main task that waits on the `WaitGroup`, closes the channel, and
then reads `rows` at `sort.Sort(rows)`.  Rows are abstracted to `Nat` ids.
`pending i = some rs`: producer `i` has not yet completed its send
(a send completes exactly when the collector's receive completes, after
which the producer's deferred `wg.Done()` fires).  `coll = some r`: the
collector has received `r` but not yet executed the append in the loop
body.  `snapshot`: the value of `rows` main reads for sorting. -/
structure AggState where
  pending : List (Option (List Nat))
  coll : Option (List Nat)
  rows : List Nat
  closed : Bool
  snapshot : Option (List Nat)

/-- One scheduler step of the fan-in protocol: a producer/collector
rendezvous on the unbuffered channel, the collector's append, main's
`close(ch)` after `wg.Wait()`, or main's read of `rows` for sorting. -/
inductive AggAct where
  | rendezvous (i : Nat)
  | appendStep
  | closeStep
  | readStep

/-- Enabledness of each step: a rendezvous needs an unsent producer and a
collector at its receive; the append needs a received-but-unappended
sequence; `close` needs every send completed (that is when `wg.Wait`
returns — nothing makes it wait for the collector's final append); the read
follows the close in main's program order. -/
def enabled (s : AggState) : AggAct → Bool
  | .rendezvous i => !s.closed && s.coll.isNone && (s.pending.getD i none).isSome
  | .appendStep => s.coll.isSome
  | .closeStep => !s.closed && s.pending.all (fun p => p.isNone)
  | .readStep => s.closed && s.snapshot.isNone

/-- Effect of each step on the state. -/
def applyAct (s : AggState) : AggAct → AggState
  | .rendezvous i =>
    { s with pending := s.pending.set i none, coll := s.pending.getD i none }
  | .appendStep => { s with rows := s.rows ++ s.coll.getD [], coll := none }
  | .closeStep => { s with closed := true }
  | .readStep => { s with snapshot := some s.rows }

/-- Run a schedule of steps from a state. -/
def aggRun (s : AggState) : List AggAct → AggState
  | [] => s
  | a :: rest => aggRun (applyAct s a) rest

/-- A schedule is valid when every step is enabled where it occurs. -/
def aggValid (s : AggState) : List AggAct → Bool
  | [] => true
  | a :: rest => enabled s a && aggValid (applyAct s a) rest

/-- Initial state of a cycle: fresh `rows`, open channel, all producers
yet to send their payloads. -/
def initAgg (payloads : List (List Nat)) : AggState :=
  { pending := payloads.map some, coll := none, rows := [],
    closed := false, snapshot := none }

/-- The interleaving that loses the last-arriving fetcher's rows: producers
0-2 send and are appended; producer 3's send rendezvouses (so its
`wg.Done()` fires) but the collector has not yet run the append when main
passes `wg.Wait()`, closes the channel, and reads `rows`. -/
def lostRowSchedule : List AggAct :=
  [.rendezvous 0, .appendStep, .rendezvous 1, .appendStep, .rendezvous 2,
   .appendStep, .rendezvous 3, .closeStep, .readStep]

/-- C1 (code bug): the claim — every interleaving yields a snapshot of
exactly `Σci` rows — fails on the code.  `main` waits only for the four
fetchers (`wg.Wait`) and closes the channel; it never waits for the
collector goroutine to finish draining, so there is a valid interleaving
(`lostRowSchedule`) in which the snapshot read at `sort.Sort(rows)` contains
3 rows although the four fetchers produced `Σci = 4`: the last-arriving
sequence was received but not yet appended. -/
theorem aggregation_drops_last_rows :
    aggValid (initAgg [[1], [2], [3], [4]]) lostRowSchedule = true ∧
    (aggRun (initAgg [[1], [2], [3], [4]]) lostRowSchedule).snapshot =
      some [1, 2, 3] ∧
    (([[1], [2], [3], [4]] : List (List Nat)).map List.length).sum = 4 ∧
    ((aggRun (initAgg [[1], [2], [3], [4]]) lostRowSchedule).snapshot.getD
      []).length = 3 := by
  decide

end Kubetop
